import Mathlib

/-!
Verification of the `StateMachine` class of `src/stateMachine.js` against its
natural-language specification.

Modelling conventions:
* JavaScript `Set<String>` values are modelled as their insertion-ordered
  element lists (`List String`); membership (`Set.has`) is `List.contains`
  and `size > 0` is list non-emptiness (a JS `Set` built from a non-empty
  list is non-empty, and membership is unchanged by deduplication).
* The JavaScript `Map<Pair, String>` transition function is modelled as its
  insertion-ordered entry list `List (Pair × String)`.  A JS `Map` keyed by
  object references can hold two structurally equal `Pair` keys at distinct
  positions, which the entry list represents directly.
* Assertions (`@ceilingcat/assertions`) throw on the first violated check;
  the constructor and `provide` are therefore modelled as functions into
  `Except ConstructErr _` / a result carrying an `Option ProvideErr`.
  Type-level assertions (`isInstanceOf(_, Set/Map/Pair/Function)`) hold by
  construction in this typed embedding and are not represented.
* The caller-supplied start/end transition hooks are opaque observers: the
  model records each invocation as a `HookEvent` carrying the positional
  arguments passed to the hook and the value the machine's `state` getter
  would return during the call (the JS hooks run with `this` bound to the
  machine, so they observe `this.#state` at invocation time).
-/

/-- Modelled from the spec (§3, §6): the `Pair` class of
`@ceilingcat/collections` (not under `src/`): an ordered pair of strings
whose `equals` is structural — two pair keys are equal iff corresponding
components are equal. -/
structure Pair where
  first : String
  second : String
deriving DecidableEq

/-- `Pair.of(a, b)` of `@ceilingcat/collections`. -/
def Pair.of (first second : String) : Pair := ⟨first, second⟩

/-- Structural equality of pairs, the `equals` method used at
`stateMachine.js:143` and `stateMachine.js:227`. -/
def Pair.equals (p q : Pair) : Bool :=
  p.first == q.first && p.second == q.second

/-- The tuple of arguments supplied to the `StateMachine` constructor
(`stateMachine.js:88-98`): input alphabet, state set, initial state,
transition entry list and final state set.  The two hook arguments are
modelled implicitly (see `HookEvent`). -/
structure MachineDefinition where
  inputAlphabet : List String
  states : List String
  initialState : String
  stateTransitionFunction : List (Pair × String)
  finalStates : List String
deriving DecidableEq

/-- The private fields of a constructed `StateMachine` instance
(`stateMachine.js:25-55`): `#inputAlphabet` (stored at line 99), `#state`
and `#initialState` (lines 106-107), `#stateTransitionFunction` (the copy
made at line 149) and `#finalStates` (the copy made at line 158). -/
structure StateMachine where
  inputAlphabet : List String
  state : String
  initialState : String
  stateTransitionFunction : List (Pair × String)
  finalStates : List String
deriving DecidableEq

/-- The distinct construction-time failure conditions raised by the
assertions at `stateMachine.js:99-169`, one constructor per distinct error
message (`finalStatesNotContained` is the message-less `hasAll` assertion
at line 157). -/
inductive ConstructErr where
  | inputAlphabetEmpty
  | statesEmpty
  | unknownInitialState (s : String)
  | transitionFunctionEmpty
  | unknownState (s : String)
  | unknownInput (s : String)
  | unknownTransitionState (s : String)
  | nonDeterministic (index0 index1 : Nat)
  | unknownFinalState (s : String)
  | finalStatesNotContained
deriving DecidableEq

/-- The per-entry validation loop at `stateMachine.js:120-138`: for each
transition entry in iteration order, check that the key's first component
is a known state, the key's second component is a known input, and the
value is a known state, failing on the first violation. -/
def validateEntries (states inputAlphabet : List String) :
    List (Pair × String) → Except ConstructErr Unit
  | [] => .ok ()
  | (currentStateAndInput, transitionState) :: rest =>
    if !(states.contains currentStateAndInput.first) then
      .error (.unknownState currentStateAndInput.first)
    else if !(inputAlphabet.contains currentStateAndInput.second) then
      .error (.unknownInput currentStateAndInput.second)
    else if !(states.contains transitionState) then
      .error (.unknownTransitionState transitionState)
    else validateEntries states inputAlphabet rest

/-- Inner loop of the duplicate-key scan at `stateMachine.js:141-146`: for
the outer key `k0` at index `i0`, return the first index `i1` (counting
from `i1`'s start value) of a key in `ks` that is distinct-by-index from
`i0` but structurally equal to `k0`. -/
def findDupInner (k0 : Pair) (i0 : Nat) : Nat → List Pair → Option Nat
  | _, [] => none
  | i1, k1 :: ks =>
    if i0 != i1 && k0.equals k1 then some i1
    else findDupInner k0 i0 (i1 + 1) ks

/-- Outer loop of the duplicate-key scan at `stateMachine.js:140-147`: scan
keys in order; for the first key with a structurally equal mate at another
index, return the pair of offending indices. -/
def findDupOuter (allKeys : List Pair) : Nat → List Pair → Option (Nat × Nat)
  | _, [] => none
  | i0, k0 :: ks =>
    match findDupInner k0 i0 0 allKeys with
    | some i1 => some (i0, i1)
    | none => findDupOuter allKeys (i0 + 1) ks

/-- The full pairwise determinism scan at `stateMachine.js:140-147`,
returning the first offending index pair in scan order, if any. -/
def scanDup (keys : List Pair) : Option (Nat × Nat) :=
  findDupOuter keys 0 keys

/-- The per-element final-state validation loop at
`stateMachine.js:153-155`. -/
def validateFinalStates (states : List String) :
    List String → Except ConstructErr Unit
  | [] => .ok ()
  | finalState :: rest =>
    if !(states.contains finalState) then .error (.unknownFinalState finalState)
    else validateFinalStates states rest

/-- Modelled from the spec (§4.1, §7): `hasAll(states, finalStates)` of
`@ceilingcat/collections` (not under `src/`), used at
`stateMachine.js:157`: every final state is a member of the state set. -/
def hasAll (states finalStates : List String) : Bool :=
  finalStates.all (fun s => states.contains s)

/-- The keys of a definition's transition entry list, in iteration order. -/
def transitionKeys (d : MachineDefinition) : List Pair :=
  d.stateTransitionFunction.map Prod.fst

/-- The `StateMachine` constructor, `stateMachine.js:88-170`: the ordered
fail-fast validation sequence, then the instance with `#state` and
`#initialState` set to the initial state and the transition function and
final states copied.  (In this value-level model the instance also holds
the alphabet contents; the reference-level model `constructRef` below
records that line 99 stores the alphabet by reference, not by copy.) -/
def construct (d : MachineDefinition) : Except ConstructErr StateMachine :=
  if d.inputAlphabet.isEmpty then .error .inputAlphabetEmpty
  else if d.states.isEmpty then .error .statesEmpty
  else if !(d.states.contains d.initialState) then
    .error (.unknownInitialState d.initialState)
  else if d.stateTransitionFunction.isEmpty then .error .transitionFunctionEmpty
  else match validateEntries d.states d.inputAlphabet d.stateTransitionFunction with
  | .error e => .error e
  | .ok () =>
    match scanDup (transitionKeys d) with
    | some (index0, index1) => .error (.nonDeterministic index0 index1)
    | none =>
      match validateFinalStates d.states d.finalStates with
      | .error e => .error e
      | .ok () =>
        if !(hasAll d.states d.finalStates) then .error .finalStatesNotContained
        else .ok { inputAlphabet := d.inputAlphabet,
                   state := d.initialState,
                   initialState := d.initialState,
                   stateTransitionFunction := d.stateTransitionFunction,
                   finalStates := d.finalStates }

/-- A recorded hook invocation: which hook fired, the positional argument
list passed to it, and the value of the machine's `state` getter during
the call (the JS hooks run with `this` bound to the machine). -/
inductive HookEvent where
  | startHook (args : List String) (observedState : String)
  | endHook (args : List String) (observedState : String)
deriving DecidableEq

/-- The runtime error raised by `provide` (`stateMachine.js:218-221`):
unknown input symbol. -/
inductive ProvideErr where
  | unknownInputSymbol (s : String)
deriving DecidableEq

/-- Result of one `provide` call: the error, if the initial assertion threw
(`stateMachine.js:218-221`); the machine object as it stands after the call
(`provide` returns `this`, `stateMachine.js:236`); and the hook invocations
that occurred, in order. -/
structure ProvideResult where
  err : Option ProvideErr
  machine : StateMachine
  events : List HookEvent
deriving DecidableEq

/-- The `forEach` body of `provide`, `stateMachine.js:225-234`: walk the
copied transition entries in order; on each entry whose key structurally
equals the `stateInputPair` captured before the loop, build
`exitArgs = [#state, inputSymbol, transitionState]`, invoke the start hook
with `exitArgs` (observing the pre-mutation `#state`), assign
`#state = transitionState`, and invoke the end hook with
`exitArgs.reverse()` (observing the post-mutation `#state`). -/
def transitionFold (stateInputPair : Pair) (inputSymbol : String) :
    List (Pair × String) → StateMachine → List HookEvent →
      StateMachine × List HookEvent
  | [], m, events => (m, events)
  | (stateAndInput, transitionState) :: rest, m, events =>
    if stateAndInput.equals stateInputPair then
      let exitArgs := [m.state, inputSymbol, transitionState]
      let m' := { m with state := transitionState }
      transitionFold stateInputPair inputSymbol rest m'
        (events ++ [HookEvent.startHook exitArgs m.state,
                    HookEvent.endHook exitArgs.reverse m'.state])
    else transitionFold stateInputPair inputSymbol rest m events

/-- `provide(inputSymbol)`, `stateMachine.js:217-237`: assert the symbol is
in the input alphabet (throwing leaves the machine untouched and fires no
hooks), then run the transition loop and return `this`. -/
def provide (m : StateMachine) (inputSymbol : String) : ProvideResult :=
  if m.inputAlphabet.contains inputSymbol then
    let stateInputPair := Pair.of m.state inputSymbol
    let r := transitionFold stateInputPair inputSymbol m.stateTransitionFunction m []
    { err := none, machine := r.1, events := r.2 }
  else
    { err := some (.unknownInputSymbol inputSymbol), machine := m, events := [] }

/-- The `isInFinalState` getter, `stateMachine.js:195-197`. -/
def StateMachine.isInFinalState (m : StateMachine) : Bool :=
  m.finalStates.contains m.state

/-- The machine object after one `provide` call (a JS caller keeps the same
object whether or not the call threw; a thrown assertion leaves it
untouched). -/
def provideStep (m : StateMachine) (inputSymbol : String) : StateMachine :=
  (provide m inputSymbol).machine

/-- The machine object after a chained sequence of `provide` calls,
left-to-right. -/
def provideMany (m : StateMachine) : List String → StateMachine
  | [] => m
  | s :: rest => provideMany (provideStep m s) rest

/-- The successive values of the `state` getter observed after each call in
a chained sequence of `provide` calls. -/
def statesAfter (m : StateMachine) : List String → List String
  | [] => []
  | s :: rest =>
    let m' := provideStep m s
    m'.state :: statesAfter m' rest

/-!
Reference-level model for the defensive-copy question (claim about
post-construction mutation of the caller's collections).  A JS `Set`/`Map`
is a mutable heap object; the model gives each caller collection a
reference id and keeps collection contents in a `Store`.  The construction
at `stateMachine.js:99` assigns the caller's alphabet `Set` itself into
`#inputAlphabet` (no copy), while lines 149 and 158 build `new Map(...)`
copies of the transition function and final states, and the `states` set is
not retained at all.  A caller mutating a collection after construction
changes the store; the machine observes that change exactly through the
references it kept.
-/

/-- Heap contents of the caller-supplied collections: set contents and map
contents by reference id. -/
structure Store where
  sets : Nat → List String
  maps : Nat → List (Pair × String)

/-- The reference ids of the four caller-supplied collections passed to the
constructor. -/
structure CollectionRefs where
  inputAlphabet : Nat
  states : Nat
  stateTransitionFunction : Nat
  finalStates : Nat
deriving DecidableEq

/-- A constructed machine at reference level: `#inputAlphabet` holds the
caller's alphabet set by reference (`stateMachine.js:99`), while
`#stateTransitionFunction` and `#finalStates` hold construction-time copies
(`stateMachine.js:149,158`); the `states` set is not retained. -/
structure RefMachine where
  inputAlphabetRef : Nat
  state : String
  initialState : String
  stateTransitionFunction : List (Pair × String)
  finalStates : List String
deriving DecidableEq

/-- The definition data the constructor reads out of the heap. -/
def gatherDefinition (σ : Store) (r : CollectionRefs) (initialState : String) :
    MachineDefinition :=
  { inputAlphabet := σ.sets r.inputAlphabet,
    states := σ.sets r.states,
    initialState := initialState,
    stateTransitionFunction := σ.maps r.stateTransitionFunction,
    finalStates := σ.sets r.finalStates }

/-- The constructor at reference level: run the value-level validation on
the collections' current contents; on success the instance keeps the
alphabet by reference and the transition function and final states as
copies of their construction-time contents. -/
def constructRef (σ : Store) (r : CollectionRefs) (initialState : String) :
    Except ConstructErr RefMachine :=
  match construct (gatherDefinition σ r initialState) with
  | .error e => .error e
  | .ok m =>
    .ok { inputAlphabetRef := r.inputAlphabet,
          state := m.state,
          initialState := m.initialState,
          stateTransitionFunction := m.stateTransitionFunction,
          finalStates := m.finalStates }

/-- Result of one reference-level `provide` call. -/
structure RefProvideResult where
  err : Option ProvideErr
  machine : RefMachine
  events : List HookEvent
deriving DecidableEq

/-- The machine's view of its own fields under a given heap: the alphabet
read through the retained reference, everything else from the owned
fields. -/
def RefMachine.view (m : RefMachine) (σ : Store) : StateMachine :=
  { inputAlphabet := σ.sets m.inputAlphabetRef,
    state := m.state,
    initialState := m.initialState,
    stateTransitionFunction := m.stateTransitionFunction,
    finalStates := m.finalStates }

/-- `provide` at reference level, `stateMachine.js:217-237`: the alphabet
membership assertion at line 219 reads `this.#inputAlphabet` — the caller's
set's *current* contents — while the transition loop reads the owned copy;
the call mutates only `#state`. -/
def provideRef (σ : Store) (m : RefMachine) (inputSymbol : String) :
    RefProvideResult :=
  let r := provide (m.view σ) inputSymbol
  { err := r.err, machine := { m with state := r.machine.state }, events := r.events }

/-- The reference-level machine after one `provide` call. -/
def provideStepRef (σ : Store) (m : RefMachine) (inputSymbol : String) :
    RefMachine :=
  (provideRef σ m inputSymbol).machine

/-- The reference-level machine after a chained sequence of `provide`
calls. -/
def provideManyRef (σ : Store) (m : RefMachine) : List String → RefMachine
  | [] => m
  | s :: rest => provideManyRef σ (provideStepRef σ m s) rest

/-!
Specification-side definitions, written from the spec's words, to be
compared with the code-side definitions above.
-/

/-- Modelled from the spec (§3 invariant 8): no two transition keys at
distinct positions are structurally equal. -/
def pairwiseDistinctKeys : List Pair → Bool
  | [] => true
  | k :: rest => rest.all (fun k1 => !(k.equals k1)) && pairwiseDistinctKeys rest

/-- Modelled from the spec (§3, "Invariants"): the conjunction of the
definition invariants 1-9, unordered.  Invariants phrased at type level
(being a set / a map / an invocable hook) hold by construction in this
typed embedding; the value-level content of each is below. -/
def definitionInvariants (d : MachineDefinition) : Bool :=
  !d.inputAlphabet.isEmpty &&
  !d.states.isEmpty &&
  d.states.contains d.initialState &&
  !d.stateTransitionFunction.isEmpty &&
  d.stateTransitionFunction.all (fun e =>
    d.states.contains e.1.first &&
    d.inputAlphabet.contains e.1.second &&
    d.states.contains e.2) &&
  pairwiseDistinctKeys (transitionKeys d) &&
  d.finalStates.all (fun s => d.states.contains s)

/-- Modelled from the spec (§4.1 step 5): per-entry validation in iteration
order — key.state membership, key.symbol membership, value membership,
all checked per entry before moving to the next entry; the first violation
is reported. -/
def specEntryViolation (states inputAlphabet : List String) :
    List (Pair × String) → Option ConstructErr
  | [] => none
  | (key, value) :: rest =>
    if !(states.contains key.first) then some (.unknownState key.first)
    else if !(inputAlphabet.contains key.second) then some (.unknownInput key.second)
    else if !(states.contains value) then some (.unknownTransitionState value)
    else specEntryViolation states inputAlphabet rest

/-- Modelled from the spec (§4.1 step 7): per-element final-state
membership check against the state set, first violation reported. -/
def specFinalViolation (states : List String) : List String → Option ConstructErr
  | [] => none
  | f :: rest =>
    if !(states.contains f) then some (.unknownFinalState f)
    else specFinalViolation states rest

/-- Modelled from the spec (§4.1): the first violated condition in the
specified checking order, with the distinct error for that condition, or
`none` when every check passes.  Step 6's "first offending pair of indices
found" is the pairwise scan `scanDup`. -/
def specFirstViolation (d : MachineDefinition) : Option ConstructErr :=
  if d.inputAlphabet.isEmpty then some .inputAlphabetEmpty
  else if d.states.isEmpty then some .statesEmpty
  else if !(d.states.contains d.initialState) then
    some (.unknownInitialState d.initialState)
  else if d.stateTransitionFunction.isEmpty then some .transitionFunctionEmpty
  else match specEntryViolation d.states d.inputAlphabet d.stateTransitionFunction with
  | some e => some e
  | none =>
    match scanDup (transitionKeys d) with
    | some (index0, index1) => some (.nonDeterministic index0 index1)
    | none =>
      match specFinalViolation d.states d.finalStates with
      | some e => some e
      | none =>
        if !(hasAll d.states d.finalStates) then some .finalStatesNotContained
        else none

/-- The checks the constructor runs before the pairwise determinism scan
(`stateMachine.js:99-138`): non-empty alphabet and state set, known initial
state, non-empty transition function, and per-entry membership checks. -/
def preTransitionChecksPass (d : MachineDefinition) : Prop :=
  d.inputAlphabet.isEmpty = false ∧
  d.states.isEmpty = false ∧
  d.states.contains d.initialState = true ∧
  d.stateTransitionFunction.isEmpty = false ∧
  validateEntries d.states d.inputAlphabet d.stateTransitionFunction = .ok ()

/-!
Basic lemmas about the embedded operations.
-/

theorem Pair.equals_iff {p q : Pair} : p.equals q = true ↔ p = q := by
  cases p
  cases q
  simp [Pair.equals, Pair.mk.injEq, Bool.and_eq_true, beq_iff_eq]

theorem Pair.equals_false_iff {p q : Pair} : p.equals q = false ↔ p ≠ q := by
  rw [← Bool.not_eq_true, not_iff_not]
  exact Pair.equals_iff

/-- A fold step over a non-matching entry leaves the accumulator alone. -/
theorem transitionFold_no_match (pair : Pair) (x : String)
    (L : List (Pair × String)) (m : StateMachine) (events : List HookEvent)
    (h : ∀ e ∈ L, e.1.equals pair = false) :
    transitionFold pair x L m events = (m, events) := by
  induction L with
  | nil => rfl
  | cons e rest ih =>
    obtain ⟨k, v⟩ := e
    have hk : k.equals pair = false := h (k, v) (List.mem_cons_self _ _)
    rw [transitionFold, hk]
    simp only [Bool.false_eq_true, if_false]
    exact ih (fun e he => h e (List.mem_cons_of_mem _ he))

/-- The transition fold only ever rewrites the `state` field. -/
theorem transitionFold_shape (pair : Pair) (x : String)
    (L : List (Pair × String)) (m : StateMachine) (events : List HookEvent) :
    (transitionFold pair x L m events).1 =
      { m with state := (transitionFold pair x L m events).1.state } := by
  induction L generalizing m events with
  | nil => rfl
  | cons e rest ih =>
    obtain ⟨k, v⟩ := e
    rw [transitionFold]
    by_cases hk : k.equals pair = true
    · rw [hk]
      simp only [if_true]
      exact ih { m with state := v } _
    · rw [Bool.not_eq_true] at hk
      rw [hk]
      simp only [Bool.false_eq_true, if_false]
      exact ih m events

/-- A `provide` call only ever rewrites the `state` field of the machine it
returns. -/
theorem provide_machine_shape (m : StateMachine) (x : String) :
    (provide m x).machine = { m with state := (provide m x).machine.state } := by
  rw [provide]
  by_cases hc : m.inputAlphabet.contains x = true
  · rw [hc]
    simp only [if_true]
    exact transitionFold_shape _ _ _ _ _
  · rw [Bool.not_eq_true] at hc
    rw [hc]
    simp only [Bool.false_eq_true, if_false]

/-- The fold over a list with exactly one matching entry: skip the
non-matching prefix, fire both hooks on the match, mutate, skip the
non-matching suffix. -/
theorem transitionFold_single_match (pair : Pair) (x : String)
    (L1 L2 : List (Pair × String)) (k : Pair) (n : String) (m : StateMachine)
    (hk : k.equals pair = true)
    (h1 : ∀ e ∈ L1, e.1.equals pair = false)
    (h2 : ∀ e ∈ L2, e.1.equals pair = false) :
    transitionFold pair x (L1 ++ (k, n) :: L2) m [] =
      ({ m with state := n },
       [HookEvent.startHook [m.state, x, n] m.state,
        HookEvent.endHook [n, x, m.state] n]) := by
  induction L1 generalizing m with
  | nil =>
    simp only [List.nil_append]
    rw [transitionFold, hk]
    simp only [if_true, List.nil_append]
    rw [transitionFold_no_match pair x L2 _ _ h2]
    rfl
  | cons e rest ih =>
    obtain ⟨k1, v1⟩ := e
    have hk1 : k1.equals pair = false := h1 (k1, v1) (List.mem_cons_self _ _)
    rw [List.cons_append, transitionFold, hk1]
    simp only [Bool.false_eq_true, if_false]
    exact ih m (fun e he => h1 e (List.mem_cons_of_mem _ he))

/-!
Characterisation of the pairwise duplicate-key scan.
-/

/-- Indices `i ≠ j` hold structurally equal keys. -/
def offending (keys : List Pair) (i j : Nat) : Prop :=
  i ≠ j ∧ ∃ (hi : i < keys.length) (hj : j < keys.length),
    (keys.get ⟨i, hi⟩).equals (keys.get ⟨j, hj⟩) = true

theorem findDupInner_none (k0 : Pair) (i0 : Nat) (ks : List Pair) (j : Nat)
    (h : findDupInner k0 i0 j ks = none) :
    ∀ t (ht : t < ks.length), i0 ≠ j + t → k0.equals (ks.get ⟨t, ht⟩) = false := by
  induction ks generalizing j with
  | nil =>
    intro t ht
    exact absurd ht (by simp)
  | cons k1 rest ih =>
    rw [findDupInner] at h
    by_cases hc : (i0 != j && k0.equals k1) = true
    · rw [if_pos hc] at h
      exact Option.noConfusion h
    · rw [if_neg hc] at h
      simp only [Bool.and_eq_true, bne_iff_ne, ne_eq, not_and, Bool.not_eq_true] at hc
      intro t ht hne
      cases t with
      | zero =>
        simp only [List.get]
        exact hc (by simpa using hne)
      | succ t' =>
        simp only [List.get]
        exact ih (j + 1) h t' (by simpa using ht) (by omega)

theorem findDupInner_some (k0 : Pair) (i0 : Nat) (ks : List Pair) (j i1 : Nat)
    (h : findDupInner k0 i0 j ks = some i1) :
    i0 ≠ i1 ∧ ∃ (t : Nat) (ht : t < ks.length), i1 = j + t ∧
      k0.equals (ks.get ⟨t, ht⟩) = true ∧
      ∀ u (hu : u < ks.length), u < t → i0 ≠ j + u →
        k0.equals (ks.get ⟨u, hu⟩) = false := by
  induction ks generalizing j with
  | nil => exact Option.noConfusion h
  | cons k1 rest ih =>
    rw [findDupInner] at h
    by_cases hc : (i0 != j && k0.equals k1) = true
    · rw [if_pos hc] at h
      simp only [Option.some.injEq] at h
      simp only [Bool.and_eq_true, bne_iff_ne, ne_eq] at hc
      subst h
      refine ⟨hc.1, 0, by simp, by omega, ?_, ?_⟩
      · simpa [List.get] using hc.2
      · intro u hu hlt
        omega
    · rw [if_neg hc] at h
      simp only [Bool.and_eq_true, bne_iff_ne, ne_eq, not_and, Bool.not_eq_true] at hc
      obtain ⟨hne, t', ht', hi1, heq, hmin⟩ := ih (j + 1) h
      refine ⟨hne, t' + 1, by simpa using ht', by omega, ?_, ?_⟩
      · simpa [List.get] using heq
      · intro u hu hlt hneu
        cases u with
        | zero =>
          simp only [List.get]
          exact hc (by simpa using hneu)
        | succ u' =>
          simp only [List.get]
          exact hmin u' (by simpa using hu) (by omega) (by omega)

theorem drop_cons_lt {α : Type} {l : List α} {n : Nat} {a : α} {t : List α}
    (h : l.drop n = a :: t) : n < l.length := by
  by_contra hc
  push_neg at hc
  rw [List.drop_eq_nil_of_le hc] at h
  exact List.noConfusion h

theorem drop_cons_get {α : Type} {l : List α} {n : Nat} {a : α} {t : List α}
    (h : l.drop n = a :: t) (hn : n < l.length) : l.get ⟨n, hn⟩ = a := by
  have h2 := List.drop_eq_getElem_cons hn
  rw [h] at h2
  have h3 := (List.cons.injEq _ _ _ _).mp h2.symm
  simpa [List.get_eq_getElem] using h3.1

theorem drop_cons_succ {α : Type} {l : List α} {n : Nat} {a : α} {t : List α}
    (h : l.drop n = a :: t) : l.drop (n + 1) = t := by
  have := List.drop_drop 1 n l
  rw [← this, h]
  rfl

theorem findDupOuter_none (keys : List Pair) (i0 : Nat) (ks : List Pair)
    (hdrop : keys.drop i0 = ks) (h : findDupOuter keys i0 ks = none) :
    ∀ p q, i0 ≤ p → ¬ offending keys p q := by
  induction ks generalizing i0 with
  | nil =>
    intro p q hp hoff
    obtain ⟨_, hi, _, _⟩ := hoff
    have : keys.length ≤ i0 := by
      by_contra hc
      push_neg at hc
      rw [List.drop_eq_nil_iff] at hdrop
      omega
    omega
  | cons k0 ks' ih =>
    rw [findDupOuter] at h
    cases hInner : findDupInner k0 i0 0 keys with
    | some i1 =>
      rw [hInner] at h
      exact Option.noConfusion h
    | none =>
      rw [hInner] at h
      intro p q hp hoff
      rcases Nat.eq_or_lt_of_le hp with heq | hlt
      · subst heq
        obtain ⟨hpq, hi, hj, heqv⟩ := hoff
        have hk0 : keys.get ⟨i0, hi⟩ = k0 := drop_cons_get hdrop hi
        rw [hk0] at heqv
        have := findDupInner_none k0 i0 keys 0 hInner q hj (by omega)
        rw [this] at heqv
        exact Bool.noConfusion heqv
      · exact ih (i0 + 1) (drop_cons_succ hdrop) h p q hlt hoff

theorem findDupOuter_some (keys : List Pair) (i0 : Nat) (ks : List Pair)
    (i j : Nat) (hdrop : keys.drop i0 = ks)
    (h : findDupOuter keys i0 ks = some (i, j)) :
    i0 ≤ i ∧ offending keys i j ∧
    (∀ p q, i0 ≤ p → p < i → ¬ offending keys p q) ∧
    (∀ q, q < j → ¬ offending keys i q) := by
  induction ks generalizing i0 with
  | nil => exact Option.noConfusion h
  | cons k0 ks' ih =>
    rw [findDupOuter] at h
    cases hInner : findDupInner k0 i0 0 keys with
    | some i1 =>
      rw [hInner] at h
      simp only [Option.some.injEq, Prod.mk.injEq] at h
      obtain ⟨rfl, rfl⟩ := h
      have hlen : i0 < keys.length := drop_cons_lt hdrop
      have hk0 : keys.get ⟨i0, hlen⟩ = k0 := drop_cons_get hdrop hlen
      obtain ⟨hne, t, ht, hjt, heqv, hmin⟩ := findDupInner_some k0 i0 keys 0 i1 hInner
      simp only [Nat.zero_add] at hjt
      subst hjt
      refine ⟨Nat.le_refl i0, ⟨hne, hlen, ht, by rw [hk0]; exact heqv⟩, ?_, ?_⟩
      · intro p q hp hpi
        omega
      · intro q hq hoff
        obtain ⟨hpq, hi', hj', heqv'⟩ := hoff
        have := hmin q hj' hq (by omega)
        rw [hk0.symm] at this
        have hi'' : keys.get ⟨i0, hi'⟩ = keys.get ⟨i0, hlen⟩ := rfl
        rw [hi''] at heqv'
        rw [this] at heqv'
        exact Bool.noConfusion heqv'
    | none =>
      rw [hInner] at h
      obtain ⟨hii, hoff, hminp, hminq⟩ := ih (i0 + 1) (drop_cons_succ hdrop) h
      refine ⟨by omega, hoff, ?_, hminq⟩
      intro p q hp hpi
      rcases Nat.eq_or_lt_of_le hp with heq | hlt
      · subst heq
        intro hoff'
        obtain ⟨hpq, hi', hj', heqv'⟩ := hoff'
        have hk0 : keys.get ⟨i0, hi'⟩ = k0 := drop_cons_get hdrop hi'
        rw [hk0] at heqv'
        have := findDupInner_none k0 i0 keys 0 hInner q hj' (by omega)
        rw [this] at heqv'
        exact Bool.noConfusion heqv'
      · exact hminp p q hlt hpi

theorem scanDup_none_prop (keys : List Pair) (h : scanDup keys = none) :
    ∀ p q, ¬ offending keys p q := by
  intro p q
  exact findDupOuter_none keys 0 keys (List.drop_zero keys) h p q (Nat.zero_le p)

theorem scanDup_some_prop (keys : List Pair) (i j : Nat)
    (h : scanDup keys = some (i, j)) :
    offending keys i j ∧
    (∀ p q, p < i → ¬ offending keys p q) ∧
    (∀ q, q < j → ¬ offending keys i q) := by
  obtain ⟨_, hoff, hminp, hminq⟩ :=
    findDupOuter_some keys 0 keys i j (List.drop_zero keys) h
  exact ⟨hoff, fun p q hp => hminp p q (Nat.zero_le p) hp, hminq⟩

theorem no_offending_iff_nodup (keys : List Pair) :
    (∀ p q, ¬ offending keys p q) ↔ keys.Nodup := by
  constructor
  · intro h
    rw [List.nodup_iff_injective_get]
    intro a b hab
    by_contra hne
    refine h a.1 b.1 ⟨?_, a.2, b.2, ?_⟩
    · intro hv
      exact hne (Fin.ext hv)
    · have : keys.get a = keys.get b := hab
      rw [Pair.equals_iff]
      simpa using this
  · intro h p q hoff
    obtain ⟨hpq, hi, hj, heqv⟩ := hoff
    rw [Pair.equals_iff] at heqv
    have := List.nodup_iff_injective_get.mp h heqv
    exact hpq (by simpa using congrArg Fin.val this)

theorem scanDup_none_iff_nodup (keys : List Pair) :
    scanDup keys = none ↔ keys.Nodup := by
  constructor
  · intro h
    exact (no_offending_iff_nodup keys).mp (scanDup_none_prop keys h)
  · intro h
    cases hs : scanDup keys with
    | none => rfl
    | some v =>
      obtain ⟨i, j⟩ := v
      have hoff := (scanDup_some_prop keys i j hs).1
      exact absurd hoff ((no_offending_iff_nodup keys).mpr h i j)

theorem pairwiseDistinctKeys_iff_nodup (keys : List Pair) :
    pairwiseDistinctKeys keys = true ↔ keys.Nodup := by
  induction keys with
  | nil => simp [pairwiseDistinctKeys]
  | cons k rest ih =>
    rw [pairwiseDistinctKeys, List.nodup_cons, Bool.and_eq_true, ih,
      List.all_eq_true]
    constructor
    · intro h
      refine ⟨fun hmem => ?_, h.2⟩
      have := h.1 k hmem
      rw [Bool.not_eq_eq_eq_not] at this
      simp only [Bool.not_true] at this
      rw [Pair.equals_false_iff] at this
      exact this rfl
    · intro h
      refine ⟨fun k1 hmem => ?_, h.2⟩
      have : k ≠ k1 := by
        intro hv
        rw [hv] at h
        exact h.1 hmem
      rw [Bool.not_eq_eq_eq_not]
      simp only [Bool.not_true]
      rw [Pair.equals_false_iff]
      exact this

/-!
Agreement between the code-side validation and the spec-side checking
order, and quantified characterisations of each check.
-/

theorem validateEntries_eq_spec (states inputAlphabet : List String)
    (L : List (Pair × String)) :
    validateEntries states inputAlphabet L =
      (match specEntryViolation states inputAlphabet L with
       | some e => Except.error e
       | none => Except.ok ()) := by
  induction L with
  | nil => rfl
  | cons e rest ih =>
    obtain ⟨k, v⟩ := e
    rw [validateEntries, specEntryViolation]
    by_cases h1 : (!(states.contains k.first)) = true
    · rw [if_pos h1, if_pos h1]
    · rw [if_neg h1, if_neg h1]
      by_cases h2 : (!(inputAlphabet.contains k.second)) = true
      · rw [if_pos h2, if_pos h2]
      · rw [if_neg h2, if_neg h2]
        by_cases h3 : (!(states.contains v)) = true
        · rw [if_pos h3, if_pos h3]
        · rw [if_neg h3, if_neg h3]
          exact ih

theorem validateFinalStates_eq_spec (states : List String) (F : List String) :
    validateFinalStates states F =
      (match specFinalViolation states F with
       | some e => Except.error e
       | none => Except.ok ()) := by
  induction F with
  | nil => rfl
  | cons f rest ih =>
    rw [validateFinalStates, specFinalViolation]
    by_cases h1 : (!(states.contains f)) = true
    · rw [if_pos h1, if_pos h1]
    · rw [if_neg h1, if_neg h1]
      exact ih

theorem specEntryViolation_none_iff (states inputAlphabet : List String)
    (L : List (Pair × String)) :
    specEntryViolation states inputAlphabet L = none ↔
      ∀ e ∈ L, states.contains e.1.first = true ∧
        inputAlphabet.contains e.1.second = true ∧
        states.contains e.2 = true := by
  induction L with
  | nil => simp [specEntryViolation]
  | cons e rest ih =>
    obtain ⟨k, v⟩ := e
    rw [specEntryViolation]
    by_cases h1 : (!(states.contains k.first)) = true
    · rw [if_pos h1]
      simp only [Bool.not_eq_eq_eq_not, Bool.not_true] at h1
      refine iff_of_false (fun h => Option.noConfusion h) (fun h => ?_)
      have := (h (k, v) (List.mem_cons_self _ _)).1
      rw [h1] at this
      exact Bool.noConfusion this
    · rw [if_neg h1]
      simp only [Bool.not_eq_true, Bool.not_eq_false'] at h1
      by_cases h2 : (!(inputAlphabet.contains k.second)) = true
      · rw [if_pos h2]
        simp only [Bool.not_eq_eq_eq_not, Bool.not_true] at h2
        refine iff_of_false (fun h => Option.noConfusion h) (fun h => ?_)
        have := (h (k, v) (List.mem_cons_self _ _)).2.1
        rw [h2] at this
        exact Bool.noConfusion this
      · rw [if_neg h2]
        simp only [Bool.not_eq_true, Bool.not_eq_false'] at h2
        by_cases h3 : (!(states.contains v)) = true
        · rw [if_pos h3]
          simp only [Bool.not_eq_eq_eq_not, Bool.not_true] at h3
          refine iff_of_false (fun h => Option.noConfusion h) (fun h => ?_)
          have := (h (k, v) (List.mem_cons_self _ _)).2.2
          rw [h3] at this
          exact Bool.noConfusion this
        · rw [if_neg h3]
          simp only [Bool.not_eq_true, Bool.not_eq_false'] at h3
          rw [ih]
          constructor
          · intro h
            intro e he
            rcases List.mem_cons.mp he with heq | hmem
            · rw [heq]
              exact ⟨h1, h2, h3⟩
            · exact h e hmem
          · intro h e he
            exact h e (List.mem_cons_of_mem _ he)

theorem specFinalViolation_none_iff (states : List String) (F : List String) :
    specFinalViolation states F = none ↔
      ∀ f ∈ F, states.contains f = true := by
  induction F with
  | nil => simp [specFinalViolation]
  | cons f rest ih =>
    rw [specFinalViolation]
    by_cases h1 : (!(states.contains f)) = true
    · rw [if_pos h1]
      simp only [Bool.not_eq_eq_eq_not, Bool.not_true] at h1
      refine iff_of_false (fun h => Option.noConfusion h) (fun h => ?_)
      have := h f (List.mem_cons_self _ _)
      rw [h1] at this
      exact Bool.noConfusion this
    · rw [if_neg h1]
      simp only [Bool.not_eq_true, Bool.not_eq_false'] at h1
      rw [ih]
      constructor
      · intro h g hg
        rcases List.mem_cons.mp hg with heq | hmem
        · rw [heq]; exact h1
        · exact h g hmem
      · intro h g hg
        exact h g (List.mem_cons_of_mem _ hg)

/-- The machine record built on constructor success
(`stateMachine.js:99-169`). -/
def mkMachine (d : MachineDefinition) : StateMachine :=
  { inputAlphabet := d.inputAlphabet,
    state := d.initialState,
    initialState := d.initialState,
    stateTransitionFunction := d.stateTransitionFunction,
    finalStates := d.finalStates }

/-- The constructor performs exactly the spec's ordered checks: it fails
with the first violation reported by `specFirstViolation` and otherwise
returns the machine record. -/
theorem construct_eq_spec (d : MachineDefinition) :
    construct d =
      (match specFirstViolation d with
       | some e => Except.error e
       | none => Except.ok (mkMachine d)) := by
  rw [construct, specFirstViolation, mkMachine]
  by_cases h1 : d.inputAlphabet.isEmpty = true
  · rw [if_pos h1, if_pos h1]
  · rw [if_neg h1, if_neg h1]
    by_cases h2 : d.states.isEmpty = true
    · rw [if_pos h2, if_pos h2]
    · rw [if_neg h2, if_neg h2]
      by_cases h3 : (!(d.states.contains d.initialState)) = true
      · rw [if_pos h3, if_pos h3]
      · rw [if_neg h3, if_neg h3]
        by_cases h4 : d.stateTransitionFunction.isEmpty = true
        · rw [if_pos h4, if_pos h4]
        · rw [if_neg h4, if_neg h4]
          rw [validateEntries_eq_spec]
          cases hE : specEntryViolation d.states d.inputAlphabet
              d.stateTransitionFunction with
          | some e => rfl
          | none =>
            simp only []
            cases hD : scanDup (transitionKeys d) with
            | some v =>
              obtain ⟨index0, index1⟩ := v
              rfl
            | none =>
              simp only []
              rw [validateFinalStates_eq_spec]
              cases hF : specFinalViolation d.states d.finalStates with
              | some e => rfl
              | none =>
                simp only []
                by_cases h5 : (!(hasAll d.states d.finalStates)) = true
                · rw [if_pos h5, if_pos h5]
                · rw [if_neg h5, if_neg h5]

theorem specFirstViolation_none_iff (d : MachineDefinition) :
    specFirstViolation d = none ↔
      (d.inputAlphabet.isEmpty = false ∧ d.states.isEmpty = false ∧
       d.states.contains d.initialState = true ∧
       d.stateTransitionFunction.isEmpty = false ∧
       specEntryViolation d.states d.inputAlphabet d.stateTransitionFunction = none ∧
       scanDup (transitionKeys d) = none ∧
       specFinalViolation d.states d.finalStates = none ∧
       hasAll d.states d.finalStates = true) := by
  rw [specFirstViolation]
  by_cases h1 : d.inputAlphabet.isEmpty = true
  · rw [if_pos h1]
    refine iff_of_false (fun h => Option.noConfusion h) (fun hr => ?_)
    have := hr.1
    rw [h1] at this
    exact Bool.noConfusion this
  · rw [if_neg h1]
    rw [Bool.not_eq_true] at h1
    by_cases h2 : d.states.isEmpty = true
    · rw [if_pos h2]
      refine iff_of_false (fun h => Option.noConfusion h) (fun hr => ?_)
      have := hr.2.1
      rw [h2] at this
      exact Bool.noConfusion this
    · rw [if_neg h2]
      rw [Bool.not_eq_true] at h2
      by_cases h3 : (!(d.states.contains d.initialState)) = true
      · rw [if_pos h3]
        simp only [Bool.not_eq_eq_eq_not, Bool.not_true] at h3
        refine iff_of_false (fun h => Option.noConfusion h) (fun hr => ?_)
        have := hr.2.2.1
        rw [h3] at this
        exact Bool.noConfusion this
      · rw [if_neg h3]
        simp only [Bool.not_eq_true, Bool.not_eq_false'] at h3
        by_cases h4 : d.stateTransitionFunction.isEmpty = true
        · rw [if_pos h4]
          refine iff_of_false (fun h => Option.noConfusion h) (fun hr => ?_)
          have := hr.2.2.2.1
          rw [h4] at this
          exact Bool.noConfusion this
        · rw [if_neg h4]
          rw [Bool.not_eq_true] at h4
          cases hE : specEntryViolation d.states d.inputAlphabet
              d.stateTransitionFunction with
          | some e =>
            refine iff_of_false (fun h => Option.noConfusion h) (fun hr => ?_)
            exact Option.noConfusion hr.2.2.2.2.1
          | none =>
            simp only []
            cases hD : scanDup (transitionKeys d) with
            | some v =>
              obtain ⟨index0, index1⟩ := v
              refine iff_of_false (fun h => Option.noConfusion h) (fun hr => ?_)
              exact Option.noConfusion hr.2.2.2.2.2.1
            | none =>
              simp only []
              cases hF : specFinalViolation d.states d.finalStates with
              | some e =>
                refine iff_of_false (fun h => Option.noConfusion h) (fun hr => ?_)
                exact Option.noConfusion hr.2.2.2.2.2.2.1
              | none =>
                simp only []
                by_cases h5 : (!(hasAll d.states d.finalStates)) = true
                · rw [if_pos h5]
                  simp only [Bool.not_eq_eq_eq_not, Bool.not_true] at h5
                  refine iff_of_false (fun h => Option.noConfusion h) (fun hr => ?_)
                  have := hr.2.2.2.2.2.2.2
                  rw [h5] at this
                  exact Bool.noConfusion this
                · rw [if_neg h5]
                  simp only [Bool.not_eq_true, Bool.not_eq_false'] at h5
                  exact iff_of_true rfl ⟨h1, h2, h3, h4, trivial, trivial, trivial, h5⟩

theorem scanDup_none_iff_pairwiseDistinct (keys : List Pair) :
    scanDup keys = none ↔ pairwiseDistinctKeys keys = true :=
  (scanDup_none_iff_nodup keys).trans (pairwiseDistinctKeys_iff_nodup keys).symm

theorem definitionInvariants_iff_none (d : MachineDefinition) :
    definitionInvariants d = true ↔ specFirstViolation d = none := by
  rw [specFirstViolation_none_iff, definitionInvariants,
    specEntryViolation_none_iff, specFinalViolation_none_iff,
    scanDup_none_iff_pairwiseDistinct]
  simp only [Bool.and_eq_true, List.all_eq_true, Bool.not_eq_true', hasAll,
    and_assoc]
  tauto

theorem construct_ok_iff (d : MachineDefinition) (m : StateMachine) :
    construct d = .ok m ↔ specFirstViolation d = none ∧ m = mkMachine d := by
  rw [construct_eq_spec]
  cases h : specFirstViolation d with
  | some e => simp
  | none => simp [eq_comm]

theorem construct_error_iff (d : MachineDefinition) (e : ConstructErr) :
    construct d = .error e ↔ specFirstViolation d = some e := by
  rw [construct_eq_spec]
  cases h : specFirstViolation d with
  | some e1 => simp
  | none => simp

/-- Everything a successful construction guarantees. -/
theorem construct_ok_checks {d : MachineDefinition} {m : StateMachine}
    (h : construct d = .ok m) :
    m = mkMachine d ∧
    d.states.contains d.initialState = true ∧
    (∀ e ∈ d.stateTransitionFunction,
      d.states.contains e.1.first = true ∧
      d.inputAlphabet.contains e.1.second = true ∧
      d.states.contains e.2 = true) ∧
    (transitionKeys d).Nodup ∧
    (∀ f ∈ d.finalStates, d.states.contains f = true) := by
  obtain ⟨hn, hm⟩ := (construct_ok_iff d m).mp h
  rw [specFirstViolation_none_iff] at hn
  refine ⟨hm, hn.2.2.1, ?_, ?_, ?_⟩
  · exact (specEntryViolation_none_iff _ _ _).mp hn.2.2.2.2.1
  · exact (scanDup_none_iff_nodup _).mp hn.2.2.2.2.2.1
  · exact (specFinalViolation_none_iff _ _).mp hn.2.2.2.2.2.2.1

/-!
Behaviour of `provide` on a machine built by the constructor.
-/

theorem mem_map_fst {L : List (Pair × String)} {k : Pair} {n : String}
    (h : (k, n) ∈ L) : k ∈ L.map Prod.fst := by
  exact List.mem_map.mpr ⟨(k, n), h, rfl⟩

/-- On a constructed machine, a transition entry whose key structurally
equals the captured `(state, inputSymbol)` pair is unique, and `provide`
fires the start hook with `[state, symbol, next]` observing the old state,
mutates, then fires the end hook with the reversed argument list observing
the new state. -/
theorem provide_match_spec {d : MachineDefinition} {m : StateMachine}
    (hc : construct d = .ok m) {k : Pair} {n s : String}
    (hmem : (k, n) ∈ m.stateTransitionFunction)
    (hk : k.equals (Pair.of m.state s) = true) :
    provide m s =
      { err := none,
        machine := { m with state := n },
        events := [HookEvent.startHook [m.state, s, n] m.state,
                   HookEvent.endHook [n, s, m.state] n] } := by
  obtain ⟨hm, _, hentries, hnodup, _⟩ := construct_ok_checks hc
  have hkey : k = Pair.of m.state s := Pair.equals_iff.mp hk
  have htf : m.stateTransitionFunction = d.stateTransitionFunction := by
    rw [hm]; rfl
  have halpha : m.inputAlphabet = d.inputAlphabet := by rw [hm]; rfl
  have hmem' : (k, n) ∈ d.stateTransitionFunction := by rw [← htf]; exact hmem
  have hsecond : d.inputAlphabet.contains k.second = true :=
    (hentries (k, n) hmem').2.1
  have hks : k.second = s := by rw [hkey]; rfl
  have hcontains : m.inputAlphabet.contains s = true := by
    rw [halpha, ← hks]; exact hsecond
  obtain ⟨L1, L2, hsplit⟩ := List.mem_iff_append.mp hmem
  have hkeys : m.stateTransitionFunction.map Prod.fst =
      L1.map Prod.fst ++ k :: L2.map Prod.fst := by
    rw [hsplit]
    simp
  have hnodup' : (m.stateTransitionFunction.map Prod.fst).Nodup := by
    rw [htf]; exact hnodup
  rw [hkeys] at hnodup'
  rw [List.nodup_middle, List.nodup_cons] at hnodup'
  have hnotmem : k ∉ L1.map Prod.fst ++ L2.map Prod.fst := hnodup'.1
  have h1 : ∀ e ∈ L1, e.1.equals (Pair.of m.state s) = false := by
    intro e he
    rw [← hkey]
    by_contra hcon
    rw [Bool.not_eq_false] at hcon
    have : e.1 = k := Pair.equals_iff.mp hcon
    exact hnotmem (List.mem_append.mpr (Or.inl (this ▸ mem_map_fst he)))
  have h2 : ∀ e ∈ L2, e.1.equals (Pair.of m.state s) = false := by
    intro e he
    rw [← hkey]
    by_contra hcon
    rw [Bool.not_eq_false] at hcon
    have : e.1 = k := Pair.equals_iff.mp hcon
    exact hnotmem (List.mem_append.mpr (Or.inr (this ▸ mem_map_fst he)))
  have hfold := transitionFold_single_match (Pair.of m.state s) s L1 L2 k n m
    (by rw [hkey]; exact Pair.equals_iff.mpr rfl) h1 h2
  rw [← hsplit] at hfold
  simp only [provide, hcontains, if_true, hfold]

/-- With a valid symbol but no structurally matching entry, `provide` is a
no-op: same machine, no hook events, no error. -/
theorem provide_no_match (m : StateMachine) (s : String)
    (hcontains : m.inputAlphabet.contains s = true)
    (h : ∀ e ∈ m.stateTransitionFunction,
      e.1.equals (Pair.of m.state s) = false) :
    provide m s = { err := none, machine := m, events := [] } := by
  have hfold := transitionFold_no_match (Pair.of m.state s) s
    m.stateTransitionFunction m [] h
  simp only [provide, hcontains, if_true, hfold]

/-- With a symbol outside the alphabet, `provide` throws, touches nothing
and fires no hooks. -/
theorem provide_unknown (m : StateMachine) (s : String)
    (h : m.inputAlphabet.contains s = false) :
    provide m s =
      { err := some (.unknownInputSymbol s), machine := m, events := [] } := by
  rw [provide, if_neg (by rw [h]; exact Bool.false_ne_true)]

/-- `provide` errors exactly when the symbol is outside the alphabet. -/
theorem provide_err_iff (m : StateMachine) (s : String) :
    (provide m s).err.isSome = true ↔ m.inputAlphabet.contains s = false := by
  by_cases h : m.inputAlphabet.contains s = true
  · have he : (provide m s).err = none := by rw [provide, if_pos h]
    rw [he, h]
    simp
  · rw [Bool.not_eq_true] at h
    rw [provide_unknown m s h, h]
    simp

/-- One `provide` call preserves every field but `state`. -/
theorem provideStep_fields (m : StateMachine) (s : String) :
    (provideStep m s).initialState = m.initialState ∧
    (provideStep m s).inputAlphabet = m.inputAlphabet ∧
    (provideStep m s).stateTransitionFunction = m.stateTransitionFunction ∧
    (provideStep m s).finalStates = m.finalStates := by
  have h := provide_machine_shape m s
  rw [provideStep, h]
  exact ⟨rfl, rfl, rfl, rfl⟩

/-- The state after the transition loop is the old state or the value of
some transition entry. -/
theorem transitionFold_state_cases (pair : Pair) (x : String)
    (L : List (Pair × String)) (m : StateMachine) (events : List HookEvent) :
    (transitionFold pair x L m events).1.state = m.state ∨
    ∃ e ∈ L, (transitionFold pair x L m events).1.state = e.2 := by
  induction L generalizing m events with
  | nil => exact Or.inl rfl
  | cons e rest ih =>
    obtain ⟨k, v⟩ := e
    rw [transitionFold]
    by_cases hk : k.equals pair = true
    · rw [if_pos hk]
      rcases ih { m with state := v } _ with h | ⟨e1, he1, h⟩
      · exact Or.inr ⟨(k, v), List.mem_cons_self _ _, h⟩
      · exact Or.inr ⟨e1, List.mem_cons_of_mem _ he1, h⟩
    · rw [if_neg hk]
      rcases ih m events with h | ⟨e1, he1, h⟩
      · exact Or.inl h
      · exact Or.inr ⟨e1, List.mem_cons_of_mem _ he1, h⟩

/-- The state after one `provide` call is the old state or the value of
some transition entry. -/
theorem provideStep_state_cases (m : StateMachine) (s : String) :
    (provideStep m s).state = m.state ∨
    ∃ e ∈ m.stateTransitionFunction, (provideStep m s).state = e.2 := by
  rw [provideStep, provide]
  by_cases h : m.inputAlphabet.contains s = true
  · simp only [h, if_true]
    exact transitionFold_state_cases (Pair.of m.state s) s
      m.stateTransitionFunction m []
  · rw [Bool.not_eq_true] at h
    rw [if_neg (by rw [h]; exact Bool.false_ne_true)]
    exact Or.inl rfl

/-- Any chained sequence of `provide` calls preserves the `initialState`
field. -/
theorem provideMany_initialState (syms : List String) (m : StateMachine) :
    (provideMany m syms).initialState = m.initialState := by
  induction syms generalizing m with
  | nil => rfl
  | cons s rest ih =>
    rw [provideMany, ih (provideStep m s), (provideStep_fields m s).1]

/-- Along any chained sequence of `provide` calls on a machine whose
current state is a declared state and whose transition values are declared
states, the current state stays a declared state. -/
theorem provideMany_state_mem (d : MachineDefinition) (syms : List String)
    (m : StateMachine)
    (hent : ∀ e ∈ d.stateTransitionFunction, d.states.contains e.2 = true)
    (hst : d.states.contains m.state = true)
    (htf : m.stateTransitionFunction = d.stateTransitionFunction) :
    d.states.contains (provideMany m syms).state = true := by
  induction syms generalizing m with
  | nil => exact hst
  | cons s rest ih =>
    rw [provideMany]
    refine ih (provideStep m s) ?_ ?_
    · rcases provideStep_state_cases m s with h | ⟨e, he, h⟩
      · rw [h]; exact hst
      · rw [h]
        rw [htf] at he
        exact hent e he
    · rw [(provideStep_fields m s).2.2.1]
      exact htf

/-!
Store invariance of the reference-level machine.
-/

/-- `provideRef` reads the heap only through the retained alphabet
reference. -/
theorem provideRef_store_invariant (σ σ' : Store) (m : RefMachine) (s : String)
    (h : σ'.sets m.inputAlphabetRef = σ.sets m.inputAlphabetRef) :
    provideRef σ' m s = provideRef σ m s := by
  rw [provideRef, provideRef, RefMachine.view, RefMachine.view, h]

theorem provideStepRef_alphabetRef (σ : Store) (m : RefMachine) (s : String) :
    (provideStepRef σ m s).inputAlphabetRef = m.inputAlphabetRef := rfl

theorem provideManyRef_store_invariant (σ σ' : Store) (syms : List String)
    (m : RefMachine)
    (h : σ'.sets m.inputAlphabetRef = σ.sets m.inputAlphabetRef) :
    provideManyRef σ' m syms = provideManyRef σ m syms := by
  induction syms generalizing m with
  | nil => rfl
  | cons s rest ih =>
    rw [provideManyRef, provideManyRef]
    have hstep : provideStepRef σ' m s = provideStepRef σ m s := by
      rw [provideStepRef, provideStepRef, provideRef_store_invariant σ σ' m s h]
    rw [hstep]
    exact ih (provideStepRef σ m s) h

/-!
Concrete machines used as witnesses and counterexamples.
-/

/-- A two-state machine with a single transition `(S, a) → T`. -/
def tinyDefinition : MachineDefinition :=
  { inputAlphabet := ["a"],
    states := ["S", "T"],
    initialState := "S",
    stateTransitionFunction := [(Pair.of "S" "a", "T")],
    finalStates := [] }

def tinyMachine : StateMachine :=
  { inputAlphabet := ["a"],
    state := "S",
    initialState := "S",
    stateTransitionFunction := [(Pair.of "S" "a", "T")],
    finalStates := [] }

/-- `tinyMachine` moved to state `T`, where `(T, a)` matches no entry. -/
def tinyMachineAtT : StateMachine :=
  { tinyMachine with state := "T" }

/-- The end-to-end scenario of the spec (§8): alphabet `{a,b,c}`, states
`{START,MID,FINAL}`, five transitions, final `{FINAL}`. -/
def scenarioDefinition : MachineDefinition :=
  { inputAlphabet := ["a", "b", "c"],
    states := ["<START>", "<MID>", "<FINAL>"],
    initialState := "<START>",
    stateTransitionFunction :=
      [(Pair.of "<START>" "a", "<START>"),
       (Pair.of "<START>" "b", "<MID>"),
       (Pair.of "<MID>" "b", "<MID>"),
       (Pair.of "<MID>" "a", "<FINAL>"),
       (Pair.of "<MID>" "c", "<START>")],
    finalStates := ["<FINAL>"] }

def scenarioMachine : StateMachine :=
  { inputAlphabet := ["a", "b", "c"],
    state := "<START>",
    initialState := "<START>",
    stateTransitionFunction :=
      [(Pair.of "<START>" "a", "<START>"),
       (Pair.of "<START>" "b", "<MID>"),
       (Pair.of "<MID>" "b", "<MID>"),
       (Pair.of "<MID>" "a", "<FINAL>"),
       (Pair.of "<MID>" "c", "<START>")],
    finalStates := ["<FINAL>"] }

/-- Duplicate structurally equal keys `("_", "a")` at positions 0 and 1,
with "_" not a declared state: the per-entry check fires before the
determinism scan. -/
def c6Definition : MachineDefinition :=
  { inputAlphabet := ["a"],
    states := ["0"],
    initialState := "0",
    stateTransitionFunction :=
      [(Pair.of "_" "a", "0"), (Pair.of "_" "a", "0")],
    finalStates := [] }

/-- Duplicate structurally equal keys on an otherwise valid definition. -/
def c6wDefinition : MachineDefinition :=
  { inputAlphabet := ["a"],
    states := ["S"],
    initialState := "S",
    stateTransitionFunction :=
      [(Pair.of "S" "a", "S"), (Pair.of "S" "a", "S")],
    finalStates := [] }

def c6wMachine : StateMachine := mkMachine c6wDefinition

/-- Caller heap: ref 0 the alphabet set `{a}`, ref 1 the state set
`{S, T}`, ref 2 the transition map, ref 3 the (empty) final state set. -/
def store0 : Store :=
  { sets := fun r => if r = 0 then ["a"] else if r = 1 then ["S", "T"] else [],
    maps := fun r => if r = 2 then [(Pair.of "S" "a", "T")] else [] }

def refs0 : CollectionRefs :=
  { inputAlphabet := 0, states := 1, stateTransitionFunction := 2,
    finalStates := 3 }

/-- The heap after the caller clears the alphabet set (ref 0); every other
collection keeps its construction-time contents. -/
def storeMut : Store :=
  { sets := fun r => if r = 0 then [] else store0.sets r,
    maps := store0.maps }

/-- The heap after the caller grows the states set (ref 1); the alphabet
set keeps its construction-time contents. -/
def storeMut2 : Store :=
  { sets := fun r => if r = 1 then ["S", "T", "X"] else store0.sets r,
    maps := store0.maps }

def refMachine0 : RefMachine :=
  { inputAlphabetRef := 0,
    state := "S",
    initialState := "S",
    stateTransitionFunction := [(Pair.of "S" "a", "T")],
    finalStates := [] }

/-!
The claims.
-/

/-- C3: for every machine whose transition function contains an entry whose
key structurally equals `(currentState, symbol)`, after `provide(symbol)`
the current state equals the entry's `nextState`; the start hook was
invoked exactly once, before the state mutation, with arguments
`(currentState, symbol, nextState)` observing the pre-transition state, and
the end hook exactly once, after the mutation, observing the
post-transition state. -/
theorem C3_matched_transition {d : MachineDefinition} {m : StateMachine}
    {k : Pair} {n s : String} (hc : construct d = .ok m)
    (hmem : (k, n) ∈ m.stateTransitionFunction)
    (hk : k.equals (Pair.of m.state s) = true) :
    provide m s =
      { err := none,
        machine := { m with state := n },
        events := [HookEvent.startHook [m.state, s, n] m.state,
                   HookEvent.endHook [n, s, m.state] n] } :=
  provide_match_spec hc hmem hk

theorem C3_witness :
    provide tinyMachine "a" =
      { err := none,
        machine := { tinyMachine with state := "T" },
        events := [HookEvent.startHook ["S", "a", "T"] "S",
                   HookEvent.endHook ["T", "a", "S"] "T"] } :=
  @C3_matched_transition tinyDefinition tinyMachine (Pair.of "S" "a") "T" "a"
    rfl (by decide) (by decide)

/-- C4: for every machine and every symbol in the input alphabet such that
no transition entry's key structurally equals `(currentState, symbol)`,
`provide(symbol)` succeeds, leaves the state unchanged, invokes neither
hook, and returns the machine. -/
theorem C4_unmatched_is_noop (m : StateMachine) (s : String)
    (hcontains : m.inputAlphabet.contains s = true)
    (h : ∀ e ∈ m.stateTransitionFunction,
      e.1.equals (Pair.of m.state s) = false) :
    provide m s = { err := none, machine := m, events := [] } :=
  provide_no_match m s hcontains h

theorem C4_witness :
    provide tinyMachineAtT "a" =
      { err := none, machine := tinyMachineAtT, events := [] } :=
  C4_unmatched_is_noop tinyMachineAtT "a" (by decide) (by decide)

/-- C5: for every machine and every symbol not in the input alphabet,
`provide(symbol)` fails with the unknown-input-symbol error, leaves the
state unchanged and invokes neither hook; and an unknown symbol is the only
condition under which `provide` fails. -/
theorem C5_unknown_symbol (m : StateMachine) (s : String) :
    ((provide m s).err.isSome = true ↔ m.inputAlphabet.contains s = false) ∧
    (m.inputAlphabet.contains s = false →
      provide m s =
        { err := some (ProvideErr.unknownInputSymbol s),
          machine := m, events := [] }) :=
  ⟨provide_err_iff m s, provide_unknown m s⟩

theorem C5_witness :
    provide tinyMachine "z" =
      { err := some (ProvideErr.unknownInputSymbol "z"),
        machine := tinyMachine, events := [] } :=
  (C5_unknown_symbol tinyMachine "z").2 (by decide)

/-- C8: for every successfully constructed machine, the current state
equals the initial state immediately after construction, and the
`initialState` accessor's value never changes over any sequence of
`provide` calls. -/
theorem C8_initial_state (d : MachineDefinition) (m : StateMachine)
    (syms : List String) (hc : construct d = .ok m) :
    m.state = m.initialState ∧
    (provideMany m syms).initialState = m.initialState := by
  obtain ⟨hm, _⟩ := construct_ok_checks hc
  refine ⟨?_, provideMany_initialState syms m⟩
  rw [hm]
  rfl

theorem C8_witness :
    tinyMachine.state = tinyMachine.initialState ∧
    (provideMany tinyMachine ["a", "a"]).initialState =
      tinyMachine.initialState :=
  C8_initial_state tinyDefinition tinyMachine ["a", "a"] rfl

/-- C9: `provide` hands back the machine itself (every field but `state` is
the caller's machine's), so chained calls apply transitions left-to-right;
the spec's end-to-end scenario yields the successive states
START, MID, MID, START, MID, FINAL and ends accepting. -/
theorem C9_chaining :
    (∀ (m : StateMachine) (s : String),
      (provide m s).machine =
        { m with state := (provide m s).machine.state }) ∧
    construct scenarioDefinition = .ok scenarioMachine ∧
    statesAfter scenarioMachine ["a", "b", "b", "c", "b", "a"] =
      ["<START>", "<MID>", "<MID>", "<START>", "<MID>", "<FINAL>"] ∧
    (provideMany scenarioMachine
      ["a", "b", "b", "c", "b", "a"]).isInFinalState = true :=
  ⟨provide_machine_shape, rfl, by decide, by decide⟩

/-- C10: for every successfully constructed machine, the current state is a
member of the declared state set after any sequence of `provide` calls
(including the empty one). -/
theorem C10_state_in_states (d : MachineDefinition) (m : StateMachine)
    (syms : List String) (hc : construct d = .ok m) :
    d.states.contains (provideMany m syms).state = true := by
  obtain ⟨hm, hinit, hent, _, _⟩ := construct_ok_checks hc
  refine provideMany_state_mem d syms m (fun e he => (hent e he).2.2) ?_ ?_
  · rw [hm]
    exact hinit
  · rw [hm]
    rfl

theorem C10_witness :
    tinyDefinition.states.contains
      (provideMany tinyMachine ["a", "a"]).state = true :=
  C10_state_in_states tinyDefinition tinyMachine ["a", "a"] rfl

/-- C1 (counterexample): on the two-state machine, `provide("a")` passes
the end hook the argument list `["T", "a", "S"]` — new state, symbol,
original state — which differs from the start hook's order
`["S", "a", "T"]` (original state, symbol, new state). -/
theorem C1_counterexample :
    construct tinyDefinition = .ok tinyMachine ∧
    (provide tinyMachine "a").events =
      [HookEvent.startHook ["S", "a", "T"] "S",
       HookEvent.endHook ["T", "a", "S"] "T"] ∧
    (["T", "a", "S"] : List String) ≠ ["S", "a", "T"] :=
  ⟨rfl, by decide, by decide⟩

/-- C1 (amended): for every machine and every matching `provide(symbol)`
call, the three positional values passed to the end-transition hook are the
start hook's three values in reverse order — the new state, the symbol, and
the original state. -/
theorem C1_end_hook_reversed {d : MachineDefinition} {m : StateMachine}
    {k : Pair} {n s : String} (hc : construct d = .ok m)
    (hmem : (k, n) ∈ m.stateTransitionFunction)
    (hk : k.equals (Pair.of m.state s) = true) :
    (provide m s).events =
      [HookEvent.startHook [m.state, s, n] m.state,
       HookEvent.endHook (List.reverse [m.state, s, n]) n] := by
  rw [provide_match_spec hc hmem hk]
  rfl

theorem C1_witness :
    (provide tinyMachine "a").events =
      [HookEvent.startHook ["S", "a", "T"] "S",
       HookEvent.endHook (List.reverse ["S", "a", "T"]) "T"] :=
  @C1_end_hook_reversed tinyDefinition tinyMachine (Pair.of "S" "a") "T" "a"
    rfl (by decide) (by decide)

/-- C2 (counterexample): the machine keeps the caller's input-alphabet set
by reference (`stateMachine.js:99`), so clearing that set after
construction (heap `storeMut`, which differs from `store0` only at the
alphabet reference) makes a previously accepted `provide("a")` fail, even
though the state set, transition map and final state set kept their
construction-time contents. -/
theorem C2_counterexample :
    constructRef store0 refs0 "S" = .ok refMachine0 ∧
    (provideRef store0 refMachine0 "a").err = none ∧
    (provideRef storeMut refMachine0 "a").err =
      some (ProvideErr.unknownInputSymbol "a") ∧
    storeMut.sets refs0.states = store0.sets refs0.states ∧
    storeMut.maps refs0.stateTransitionFunction =
      store0.maps refs0.stateTransitionFunction ∧
    storeMut.sets refs0.finalStates = store0.sets refs0.finalStates :=
  ⟨rfl, rfl, rfl, rfl, rfl, rfl⟩

/-- C2 (amended): for every constructed machine, any post-construction
mutation of the caller's collections that leaves the input-alphabet set's
contents unchanged — in particular any mutation of the state set, the
transition map or the final state set when they are distinct objects from
the alphabet — does not affect any later `provide` result or chained
sequence of them; `state`, `initialState` and `isInFinalState` read no
caller collection at all. -/
theorem C2_alphabet_only_alias (σ σ' : Store) (r : CollectionRefs)
    (init : String) (m : RefMachine) (s : String) (syms : List String)
    (hc : constructRef σ r init = .ok m)
    (h : σ'.sets r.inputAlphabet = σ.sets r.inputAlphabet) :
    provideRef σ' m s = provideRef σ m s ∧
    provideManyRef σ' m syms = provideManyRef σ m syms := by
  have hr : m.inputAlphabetRef = r.inputAlphabet := by
    rw [constructRef] at hc
    cases hcc : construct (gatherDefinition σ r init) with
    | error e =>
      rw [hcc] at hc
      exact Except.noConfusion hc
    | ok m0 =>
      rw [hcc] at hc
      simp only [Except.ok.injEq] at hc
      rw [← hc]
  rw [← hr] at h
  exact ⟨provideRef_store_invariant σ σ' m s h,
    provideManyRef_store_invariant σ σ' syms m h⟩

theorem C2_witness :
    provideRef storeMut2 refMachine0 "a" = provideRef store0 refMachine0 "a" ∧
    provideManyRef storeMut2 refMachine0 ["a"] =
      provideManyRef store0 refMachine0 ["a"] :=
  C2_alphabet_only_alias store0 storeMut2 refs0 "S" refMachine0 "a" ["a"]
    rfl rfl

/-- C6 (counterexample): a definition whose transition function holds
structurally equal keys at positions 0 and 1 but whose first key names an
unknown state fails with the unknown-state error, not with the
non-determinism error naming the offending index pair. -/
theorem C6_counterexample :
    offending (transitionKeys c6Definition) 0 1 ∧
    construct c6Definition = .error (ConstructErr.unknownState "_") ∧
    (Except.error (ConstructErr.unknownState "_") :
        Except ConstructErr StateMachine) ≠
      Except.error (ConstructErr.nonDeterministic 0 1) := by
  refine ⟨⟨by decide, by decide, by decide, by decide⟩, rfl, ?_⟩
  intro h
  simp only [Except.error.injEq] at h
  exact ConstructErr.noConfusion h

/-- C6 (amended): a construction input with two structurally equal
transition keys at distinct positions always fails; when every
earlier-ordered check passes (non-empty alphabet and state set, known
initial state, non-empty transition function, per-entry membership checks),
it fails with the non-determinism error reporting the first offending pair
of entry indices in iteration order (the lexicographically least offending
ordered pair). -/
theorem C6_duplicate_keys (d : MachineDefinition) (i j : Nat)
    (hoff : offending (transitionKeys d) i j) :
    (∀ m, construct d ≠ .ok m) ∧
    (preTransitionChecksPass d →
      ∃ i0 j0, construct d = .error (ConstructErr.nonDeterministic i0 j0) ∧
        offending (transitionKeys d) i0 j0 ∧
        (∀ p q, p < i0 → ¬ offending (transitionKeys d) p q) ∧
        (∀ q, q < j0 → ¬ offending (transitionKeys d) i0 q)) := by
  constructor
  · intro m h
    obtain ⟨_, _, _, hnodup, _⟩ := construct_ok_checks h
    exact (no_offending_iff_nodup _).mpr hnodup i j hoff
  · intro hpre
    obtain ⟨h1, h2, h3, h4, h5⟩ := hpre
    have hE : specEntryViolation d.states d.inputAlphabet
        d.stateTransitionFunction = none := by
      rw [validateEntries_eq_spec] at h5
      cases he : specEntryViolation d.states d.inputAlphabet
          d.stateTransitionFunction with
      | none => rfl
      | some e =>
        rw [he] at h5
        exact Except.noConfusion h5
    cases hscan : scanDup (transitionKeys d) with
    | none =>
      exact absurd hoff
        ((no_offending_iff_nodup _).mpr ((scanDup_none_iff_nodup _).mp hscan) i j)
    | some v =>
      obtain ⟨i0, j0⟩ := v
      obtain ⟨hoff0, hminp, hminq⟩ := scanDup_some_prop _ i0 j0 hscan
      refine ⟨i0, j0, ?_, hoff0, hminp, hminq⟩
      rw [construct_error_iff, specFirstViolation,
        if_neg (by rw [h1]; exact Bool.false_ne_true),
        if_neg (by rw [h2]; exact Bool.false_ne_true),
        if_neg (by rw [h3]; decide),
        if_neg (by rw [h4]; exact Bool.false_ne_true),
        hE, hscan]

theorem C6_witness :
    construct c6wDefinition ≠ .ok c6wMachine ∧
    construct c6wDefinition = .error (ConstructErr.nonDeterministic 0 1) :=
  ⟨(C6_duplicate_keys c6wDefinition 0 1
      ⟨by decide, by decide, by decide, by decide⟩).1 c6wMachine, rfl⟩

/-- C7: construction succeeds exactly when all of the spec's definition
invariants hold (the type-level and hook-invocability invariants hold by
construction in this typed embedding), and on any violation it fails with
the distinct error of the first violated condition in the spec's checking
order. -/
theorem C7_construction_validation (d : MachineDefinition) :
    ((∃ m, construct d = .ok m) ↔ definitionInvariants d = true) ∧
    (∀ e, construct d = .error e ↔ specFirstViolation d = some e) := by
  constructor
  · rw [definitionInvariants_iff_none]
    constructor
    · rintro ⟨m, hm⟩
      exact ((construct_ok_iff d m).mp hm).1
    · intro h
      exact ⟨mkMachine d, (construct_ok_iff d (mkMachine d)).mpr ⟨h, rfl⟩⟩
  · exact construct_error_iff d

theorem C7_witness :
    ((∃ m, construct tinyDefinition = .ok m) ↔
      definitionInvariants tinyDefinition = true) ∧
    (construct c6Definition = .error (ConstructErr.unknownState "_") ↔
      specFirstViolation c6Definition = some (ConstructErr.unknownState "_")) :=
  ⟨(C7_construction_validation tinyDefinition).1,
   (C7_construction_validation c6Definition).2 (ConstructErr.unknownState "_")⟩
